import Mathlib

/-!
Shallow embedding of the signal-slot dispatch engine in
`src/include/signal.hpp` (namespace `daking::detail`), under the sequential
semantics of a single thread: every atomic load/store and every CAS loop
executes without interference, so a CAS retry loop runs exactly one
iteration.  Handlers (the registered sender closures) are modelled as pure
functions from the signal payload to the value their task produces; a
spawned task is recorded as the pair (slot id, produced value).
-/

namespace SignalModel

/-- A slot (`slot_base` / `slot_impl`, signal.hpp:546-595): the atomic flag
`enabled_` (initialised to `true` by the in-class initialiser) together with
the registered handler closure `closure_`, modelled as a pure function from
the payload to the result of the task `Invoke` spawns. -/
structure Slot (α β : Type) where
  enabled : Bool
  handler : α → β

/-- Global slot storage.  Slot identity in the C++ code is pointer identity
of the `shared_ptr<slot_base>` object; here a slot is identified by its
allocation index into `heap`.  An entry `none` models a slot whose strong
reference count has reached zero, so that `weak_ptr::lock()` on a handle to
it fails. -/
structure World (α β : Type) where
  heap : List (Option (Slot α β))

/-- A connection handle (`connection_signatures`, signal.hpp:140-173) under
sequential semantics is just the weak reference, i.e. the slot id; the
`async_scope*` member only routes spawns and plays no role here. -/
abbrev Connection := Nat

/-- One emitter-unit's published slot store
(`emitter_unit::slots_ : std::atomic<std::shared_ptr<std::vector<slot>>>`,
signal.hpp:748).  `none` models the null `shared_ptr` the atomic holds
before the first `Register`; this is distinct from an empty vector and the
code treats the two differently in `Check`. -/
abbrev Store := Option (List Connection)

/-- The dispatch-level error taxonomy: the three `std::runtime_error`
messages raised in `EmitConnection` (signal.hpp:528,531) and
`emitter_unit::Check` (signal.hpp:714,745). -/
inductive SigError : Type where
  | closed
  | disabled
  | foreignOrDup
deriving DecidableEq

/-- Resolve a weak reference: `con.ptr_.lock()` yields the slot when it is
still alive. -/
def World.slotAt (w : World α β) (id : Nat) : Option (Slot α β) :=
  go w.heap id
where
  go : List (Option (Slot α β)) → Nat → Option (Slot α β)
    | [], _ => none
    | o :: _, 0 => o
    | _ :: t, n + 1 => go t n

/-- Replace the slot stored at `id` (used to model a store to the slot's
`enabled_` flag; out-of-range indices leave the heap unchanged, which never
happens on a live slot). -/
def setHeap : List (Option (Slot α β)) → Nat → Option (Slot α β) → List (Option (Slot α β))
  | [], _, _ => []
  | _ :: t, 0, v => v :: t
  | h :: t, n + 1, v => h :: setHeap t n v

/-- Bool-level view: the handle resolves to a live slot. -/
def World.alive (w : World α β) (id : Nat) : Bool :=
  (w.slotAt id).isSome

/-- Bool-level view: the handle resolves to a live slot whose `enabled_`
flag is set. -/
def World.liveEnabled (w : World α β) (id : Nat) : Bool :=
  ((w.slotAt id).map Slot.enabled).getD false

/-- Shared body of `connection_signatures::enable/disable`
(signal.hpp:144-160): lock the weak reference, return `false` when expired,
else store the flag and return `true`. -/
def setEnabled (w : World α β) (id : Nat) (b : Bool) : Bool × World α β :=
  match w.slotAt id with
  | none => (false, w)
  | some s => (true, ⟨setHeap w.heap id (some { s with enabled := b })⟩)

/-- Model of `connection_signatures::enable` (signal.hpp:144-151). -/
def enable (w : World α β) (id : Nat) : Bool × World α β :=
  setEnabled w id true

/-- Model of `connection_signatures::disable` (signal.hpp:153-160). -/
def disable (w : World α β) (id : Nat) : Bool × World α β :=
  setEnabled w id false

/-- Model of `emitter_unit::Register` (signal.hpp:636-658): allocate a fresh slot
with `enabled_ = true` holding the closure, clone the current snapshot (or
start from an empty vector when the store is still null), append the slot
and publish it by CAS; sequentially the CAS succeeds on the first try.
Returns (the weak handle, the new world, the newly published snapshot). -/
def register (h : α → β) (w : World α β) (st : Store) :
    Nat × World α β × List Connection :=
  (w.heap.length,
   ⟨w.heap ++ [some ⟨true, h⟩]⟩,
   st.getD [] ++ [w.heap.length])

/-- Model of `disconnect_t::Impl` (signal.hpp:227-238) followed by
`emitter_unit::Unregister` (signal.hpp:660-684): lock the handle, `false`
when expired; clone the snapshot, remove the slot by value identity,
`false` (without publishing) when it was absent, else publish the shrunken
clone.  `std::remove` + single `erase` removes the slot's one occurrence
(snapshots are duplicate-free: `Register` only ever appends fresh slots). -/
def disconnect (w : World α β) (st : Store) (id : Nat) : Bool × Store :=
  match w.slotAt id with
  | none => (false, st)
  | some _ =>
    let old := st.getD []
    if id ∈ old then (true, some (old.erase id)) else (false, st)

/-- The aggregate produced by `EmitConnection` / `Capture`
(`specific_emission_sender`, signal.hpp:349-390): `spawned` lists, in handle
order, the tracked future for each handle whose `Invoke` actually spawned
(slot id, value the task produces); `error` is the exception installed by
`Emplace_error`, which keeps only the first error (signal.hpp:382-386).
Connecting a sender with `error` set completes with that error immediately
via `set_error` (signal.hpp:336-343). -/
structure EmissionResult (β : Type) where
  spawned : List (Nat × β)
  error : Option SigError
deriving DecidableEq

/-- Model of `specific_emission_sender::Emplace_error` (signal.hpp:382-386): install
the error only when no earlier error is present. -/
def emplaceError (r : EmissionResult β) (e : SigError) : EmissionResult β :=
  match r.error with
  | some _ => r
  | none => { r with error := some e }

/-- One step of the `get_future` fold in `emit_t::EmitConnection`
(signal.hpp:515-534): lock the handle — expired installs `closed`; a live
but disabled slot installs `disabled`; a live enabled slot has its `Invoke`
spawn a tracked future holding the handler's result on the payload. -/
def emitStep (args : α) (w : World α β) (acc : EmissionResult β) (id : Nat) :
    EmissionResult β :=
  match w.slotAt id with
  | none => emplaceError acc .closed
  | some s =>
    if s.enabled then { acc with spawned := acc.spawned ++ [(id, s.handler args)] }
    else emplaceError acc .disabled

/-- Model of `emit_t::EmitConnection` (signal.hpp:511-540): fold `get_future` over
the named handles in argument order, starting from a default-constructed
sender. -/
def emitConnection (args : α) (w : World α β) (cons : List Connection) :
    EmissionResult β :=
  cons.foldl (emitStep args w) ⟨[], none⟩

/-- Model of `emitter_unit::Broadcast` (signal.hpp:686-695): load the current
snapshot (a null store broadcasts to nobody); for each slot in snapshot
order, `Invoke` with a null result target spawns a fire-and-forget task iff
the slot's `enabled_` flag is set (signal.hpp:577-592); a disabled slot is
silently skipped and no error can reach the caller (the return type is
`void`).  The result lists the spawned tasks in snapshot order.  A snapshot
entry can never be dead in the C++ code (the snapshot's `shared_ptr` keeps
it alive); such an entry is skipped here. -/
def broadcastTasks (args : α) (w : World α β) (st : Store) : List (Nat × β) :=
  (st.getD []).filterMap fun id =>
    match w.slotAt id with
    | some s => if s.enabled then some (id, s.handler args) else none
    | none => none

/-- Model of `emitter_unit::Check` (signal.hpp:697-746).  A null store skips the
whole body and lands on the final `throw` (`foreignOrDup`).  Otherwise
`make_hash_table` locks each named handle in argument order and throws
`closed` at the first expired one; then every locked pointer is inserted
into an open-addressing table of size `nextPow2 (number of handles)`, and
the snapshot is scanned counting the snapshot slots whose pointer is found
in the table.  Linear-probing lookup over a table built by linear-probing
insertion finds a pointer iff it was inserted (insertions never overwrite,
lookups stop at the first empty cell on the unique probe path), so the
table is modelled by its contents — the list of named slot ids — and the
count by filtering the snapshot on membership in that list.  The check
passes iff the count equals the number of named handles. -/
def check (w : World α β) (st : Store) (cons : List Connection) :
    Option SigError :=
  match st with
  | none => some .foreignOrDup
  | some snap =>
    match cons.findSome? (fun id => if (w.slotAt id).isSome then none else some SigError.closed) with
    | some e => some e
    | none =>
      if (snap.filter fun p => cons.contains p).length = cons.length then none
      else some .foreignOrDup

/-- The pack expansion `(cons.disable(), ...)` in `emit_t::Capture`
(signal.hpp:500): disable the named connections left to right. -/
def disableAll (w : World α β) (cons : List Connection) : World α β :=
  cons.foldl (fun w id => (disable w id).2) w

/-- The pack expansion `(cons.enable(), ...)` in `emit_t::Capture`
(signal.hpp:502): re-enable the named connections left to right. -/
def enableAll (w : World α β) (cons : List Connection) : World α β :=
  cons.foldl (fun w id => (enable w id).2) w

/-- Everything observable about one `emit_t::Capture` call: the returned
aggregate, the fire-and-forget tasks the embedded broadcast spawned, and
the world after the final re-enable pass. -/
structure CaptureOutcome (α β : Type) where
  result : EmissionResult β
  bcast : List (Nat × β)
  world : World α β

/-- Model of `emit_t::Capture` (signal.hpp:491-509): run `Check`; on a throw the
default-constructed sender receives the error via `Emplace_error` and
nothing else happens.  Otherwise build the tracked aggregate exactly as
`EmitConnection` does, disable the named connections, broadcast to the full
snapshot (the named slots are now disabled, so broadcast skips them), then
re-enable the named connections, and return the aggregate. -/
def capture (args : α) (w : World α β) (st : Store) (cons : List Connection) :
    CaptureOutcome α β :=
  match check w st cons with
  | some e => ⟨emplaceError ⟨[], none⟩ e, [], w⟩
  | none =>
    let sender := emitConnection args w cons
    let w1 := disableAll w cons
    let b := broadcastTasks args w1 st
    let w2 := enableAll w1 cons
    ⟨sender, b, w2⟩

/-- Per-handle validation verdict of the `get_future` step, used to state
which error `EmitConnection` reports: `closed` for an expired handle,
`disabled` for a live slot with the flag off, no verdict for a live enabled
slot. -/
def verdict (w : World α β) (id : Nat) : Option SigError :=
  match w.slotAt id with
  | none => some .closed
  | some s => if s.enabled then none else some .disabled

/-- The tracked task a handle contributes when its slot is live and
enabled, used to state which tasks `EmitConnection` spawns. -/
def taskOf (args : α) (w : World α β) (id : Nat) : Option (Nat × β) :=
  match w.slotAt id with
  | some s => if s.enabled then some (id, s.handler args) else none
  | none => none

/-- First-of-two option choice, used to state error precedence in
`Capture`: an error thrown by `Check` wins over any per-handle error. -/
def optOr (a b : Option SigError) : Option SigError :=
  match a with
  | some x => some x
  | none => b

/-! ### Concrete fixtures, used to evaluate the theorems on the scenarios
the specification's testable properties describe -/

/-- One live enabled slot with handler `n ↦ n + 1`; ids ≥ 1 are expired. -/
def exW1 : World Nat Nat :=
  ⟨[some ⟨true, fun n => n + 1⟩]⟩

/-- Slot 0 live but disabled, slot 1 live and enabled. -/
def exW1d : World Nat Nat :=
  ⟨[some ⟨false, fun n => n + 1⟩, some ⟨true, fun n => n + 100⟩]⟩

/-- The capture-isolation scenario: slot 0 is the captured connection with
handler `i ↦ i + 1`; slot 1 is the background broadcast-only connection
whose task bumps a counter, modelled as producing the increment `1`. -/
def exW2 : World (Nat × String) Nat :=
  ⟨[some ⟨true, fun p => p.1 + 1⟩, some ⟨true, fun _ => 1⟩]⟩

/-- Taxonomy scenario: slot 0 live enabled, slot 1 live disabled, id 2
expired, slot 3 live enabled but registered on a different emitter. -/
def exW3 : World Nat Nat :=
  ⟨[some ⟨true, fun n => n⟩, some ⟨false, fun n => n⟩, none, some ⟨true, fun n => n⟩]⟩

/-- The direct-aggregation scenario: payload `(5, "hello")`, slot 0 with
handler `i ↦ i + 10` on the first field, slot 1 with handler
`s ↦ s ++ " world"` on the second field; the two result types are embedded
in a sum. -/
def exW4 : World (Nat × String) (Sum Nat String) :=
  ⟨[some ⟨true, fun p => Sum.inl (p.1 + 10)⟩, some ⟨true, fun p => Sum.inr (p.2 ++ " world")⟩]⟩

/-- One live enabled slot, handler `n ↦ n * 2`; ids ≥ 1 are expired. -/
def exW5 : World Nat Nat :=
  ⟨[some ⟨true, fun n => n * 2⟩]⟩

/-- Two live enabled slots (only slot 0 is registered in the store used by
the disconnect scenarios); ids ≥ 2 are expired. -/
def exW6 : World Nat Nat :=
  ⟨[some ⟨true, fun n => n + 1⟩, some ⟨true, fun n => n + 2⟩]⟩

/-! ### Basic lemmas about the heap and the enabled flag -/

theorem slotAt_go_setHeap_ne {hp : List (Option (Slot α β))} {i j : Nat}
    (hne : j ≠ i) (v : Option (Slot α β)) :
    World.slotAt.go (setHeap hp i v) j = World.slotAt.go hp j := by
  induction hp generalizing i j with
  | nil => simp [setHeap]
  | cons h t ih =>
    cases i with
    | zero =>
      cases j with
      | zero => exact absurd rfl hne
      | succ j => simp [setHeap, World.slotAt.go]
    | succ i =>
      cases j with
      | zero => simp [setHeap, World.slotAt.go]
      | succ j =>
        simp only [setHeap, World.slotAt.go]
        exact ih (fun h => hne (by simp [h]))

theorem slotAt_go_setHeap_self {hp : List (Option (Slot α β))} {i : Nat}
    {s : Slot α β} (hs : World.slotAt.go hp i = some s) (v : Option (Slot α β)) :
    World.slotAt.go (setHeap hp i v) i = v := by
  induction hp generalizing i with
  | nil => simp [World.slotAt.go] at hs
  | cons h t ih =>
    cases i with
    | zero => simp [setHeap, World.slotAt.go]
    | succ i =>
      simp only [setHeap, World.slotAt.go] at hs ⊢
      exact ih hs

theorem setEnabled_dead {w : World α β} {id : Nat}
    (h : w.slotAt id = none) (b : Bool) : setEnabled w id b = (false, w) := by
  simp [setEnabled, h]

theorem slotAt_setEnabled (w : World α β) (id : Nat) (b : Bool) (j : Nat) :
    (setEnabled w id b).2.slotAt j =
      if j = id then (w.slotAt id).map (fun s => ⟨b, s.handler⟩) else w.slotAt j := by
  unfold setEnabled
  cases hs : w.slotAt id with
  | none => simp only [Option.map_none']; split <;> simp_all
  | some s =>
    simp only [Option.map_some']
    by_cases hj : j = id
    · subst hj
      simpa using slotAt_go_setHeap_self hs (some { s with enabled := b })
    · simpa [hj] using slotAt_go_setHeap_ne hj (some { s with enabled := b })

theorem setEnabled_fst_live {w : World α β} {id : Nat} {s : Slot α β}
    (h : w.slotAt id = some s) (b : Bool) : (setEnabled w id b).1 = true := by
  simp [setEnabled, h]

/-- Effect of a left-to-right pass setting the flag of every listed
connection: listed live slots get the flag `b`, everything else is
untouched. -/
theorem slotAt_foldSetEnabled (b : Bool) (cons : List Connection)
    (w : World α β) (j : Nat) :
    (cons.foldl (fun w id => (setEnabled w id b).2) w).slotAt j =
      if j ∈ cons then (w.slotAt j).map (fun s => ⟨b, s.handler⟩) else w.slotAt j := by
  induction cons generalizing w with
  | nil => simp
  | cons a rest ih =>
    simp only [List.foldl_cons, ih, slotAt_setEnabled, List.mem_cons]
    by_cases hj : j = a
    · subst hj
      by_cases hr : j ∈ rest <;>
        cases hw : w.slotAt j <;> simp [hr, hw]
    · by_cases hr : j ∈ rest <;> simp [hj, hr]

theorem slotAt_disableAll (cons : List Connection) (w : World α β) (j : Nat) :
    (disableAll w cons).slotAt j =
      if j ∈ cons then (w.slotAt j).map (fun s => ⟨false, s.handler⟩) else w.slotAt j :=
  slotAt_foldSetEnabled false cons w j

theorem slotAt_enableAll (cons : List Connection) (w : World α β) (j : Nat) :
    (enableAll w cons).slotAt j =
      if j ∈ cons then (w.slotAt j).map (fun s => ⟨true, s.handler⟩) else w.slotAt j :=
  slotAt_foldSetEnabled true cons w j

/-- After `Capture`'s disable pass and re-enable pass, every listed live
slot is enabled (whatever its flag was before) and every other slot is
untouched. -/
theorem slotAt_enableAll_disableAll (cons : List Connection) (w : World α β) (j : Nat) :
    (enableAll (disableAll w cons) cons).slotAt j =
      if j ∈ cons then (w.slotAt j).map (fun s => ⟨true, s.handler⟩) else w.slotAt j := by
  rw [slotAt_enableAll, slotAt_disableAll]
  by_cases hj : j ∈ cons
  · cases hw : w.slotAt j <;> simp [hj, hw]
  · simp [hj]

/-! ### Characterisation of the `EmitConnection` fold -/

theorem emplaceError_eq (r : EmissionResult β) (e : SigError) :
    emplaceError r e = ⟨r.spawned, optOr r.error (some e)⟩ := by
  cases r with
  | mk s err => cases err <;> simp [emplaceError, optOr]

theorem optOr_some_left (a : Option SigError) (e : SigError) (y : Option SigError) :
    optOr (optOr a (some e)) y = optOr a (some e) := by
  cases a <;> simp [optOr]

theorem foldl_emitStep (args : α) (w : World α β) (cons : List Connection)
    (acc : EmissionResult β) :
    cons.foldl (emitStep args w) acc =
      ⟨acc.spawned ++ cons.filterMap (taskOf args w),
       optOr acc.error (cons.findSome? (verdict w))⟩ := by
  induction cons generalizing acc with
  | nil => cases acc with | mk s e => cases e <;> simp [optOr]
  | cons a rest ih =>
    simp only [List.foldl_cons]
    cases hs : w.slotAt a with
    | none =>
      rw [show emitStep args w acc a = emplaceError acc .closed by simp [emitStep, hs],
        emplaceError_eq, ih]
      simp [taskOf, verdict, hs, optOr_some_left, List.findSome?_cons]
    | some s =>
      cases he : s.enabled with
      | false =>
        rw [show emitStep args w acc a = emplaceError acc .disabled by simp [emitStep, hs, he],
          emplaceError_eq, ih]
        simp [taskOf, verdict, hs, he, optOr_some_left, List.findSome?_cons]
      | true =>
        rw [show emitStep args w acc a =
            { acc with spawned := acc.spawned ++ [(a, s.handler args)] } by
          simp [emitStep, hs, he], ih]
        simp [taskOf, verdict, hs, he, List.findSome?_cons]

/-- Fold characterisation: `EmitConnection` spawns exactly the tracked tasks of the live enabled
handles, in handle order, and reports the first per-handle validation
verdict in handle order. -/
theorem emitConnection_eq (args : α) (w : World α β) (cons : List Connection) :
    emitConnection args w cons =
      ⟨cons.filterMap (taskOf args w), cons.findSome? (verdict w)⟩ := by
  rw [emitConnection, foldl_emitStep]
  simp [optOr]

/-! ### Lemmas about `taskOf`, `verdict` and `broadcastTasks` -/

theorem taskOf_fst {args : α} {w : World α β} {a : Nat} {p : Nat × β}
    (h : taskOf args w a = some p) : p.1 = a := by
  unfold taskOf at h
  cases hs : w.slotAt a with
  | none => simp [hs] at h
  | some s =>
    cases he : s.enabled <;> simp [hs, he] at h
    simp [← h]

theorem taskOf_isSome (args : α) (w : World α β) (id : Nat) :
    (taskOf args w id).isSome = w.liveEnabled id := by
  unfold taskOf World.liveEnabled
  cases hs : w.slotAt id with
  | none => simp
  | some s => cases he : s.enabled <;> simp [he]

theorem taskOf_of_liveEnabled {args : α} {w : World α β} {id : Nat} {s : Slot α β}
    (hs : w.slotAt id = some s) (he : s.enabled = true) :
    taskOf args w id = some (id, s.handler args) := by
  simp [taskOf, hs, he]

theorem verdict_eq_none_iff (w : World α β) (id : Nat) :
    verdict w id = none ↔ w.liveEnabled id = true := by
  unfold verdict World.liveEnabled
  cases hs : w.slotAt id with
  | none => simp
  | some s => cases he : s.enabled <;> simp [he]

theorem verdict_eq_closed_iff (w : World α β) (id : Nat) :
    verdict w id = some .closed ↔ w.alive id = false := by
  unfold verdict World.alive
  cases hs : w.slotAt id with
  | none => simp
  | some s => cases he : s.enabled <;> simp [he]

theorem verdict_eq_disabled_iff (w : World α β) (id : Nat) :
    verdict w id = some .disabled ↔ (w.alive id = true ∧ w.liveEnabled id = false) := by
  unfold verdict World.alive World.liveEnabled
  cases hs : w.slotAt id with
  | none => simp
  | some s => cases he : s.enabled <;> simp [he]

theorem verdict_ne_foreign (w : World α β) (id : Nat) :
    verdict w id ≠ some .foreignOrDup := by
  unfold verdict
  cases hs : w.slotAt id with
  | none => simp
  | some s => cases he : s.enabled <;> simp [he]

theorem broadcastTasks_eq (args : α) (w : World α β) (st : Store) :
    broadcastTasks args w st = (st.getD []).filterMap (taskOf args w) := rfl

theorem map_fst_filterMap_of_fst {f : Nat → Option (Nat × β)}
    (hkey : ∀ a p, f a = some p → p.1 = a) (l : List Nat) :
    (l.filterMap f).map Prod.fst = l.filter fun a => (f a).isSome := by
  induction l with
  | nil => simp
  | cons a rest ih =>
    cases hf : f a with
    | none => simp [hf, ih]
    | some p =>
      simp [hf, ih, hkey a p hf]

theorem map_fst_broadcastTasks (args : α) (w : World α β) (st : Store) :
    (broadcastTasks args w st).map Prod.fst =
      (st.getD []).filter fun id => w.liveEnabled id := by
  rw [broadcastTasks_eq, map_fst_filterMap_of_fst (fun a p h => taskOf_fst h)]
  simp only [taskOf_isSome]

theorem mem_broadcastTasks {args : α} {w : World α β} {st : Store} {id : Nat} {x : β} :
    (id, x) ∈ broadcastTasks args w st ↔
      id ∈ st.getD [] ∧ taskOf args w id = some (id, x) := by
  rw [broadcastTasks_eq, List.mem_filterMap]
  constructor
  · rintro ⟨a, ha, hf⟩
    have := taskOf_fst hf
    simp only at this
    exact ⟨this ▸ ha, this ▸ hf⟩
  · rintro ⟨h1, h2⟩
    exact ⟨id, h1, h2⟩

theorem filterMap_map_some_of_isSome {f : Nat → Option (Nat × β)} {l : List Nat}
    (h : ∀ a ∈ l, (f a).isSome) :
    (l.filterMap f).map some = l.map f := by
  induction l with
  | nil => simp
  | cons a rest ih =>
    have ha := h a (by simp)
    cases hf : f a with
    | none => simp [hf] at ha
    | some p =>
      simp only [List.filterMap_cons, hf, List.map_cons]
      rw [ih fun a ha => h a (by simp [ha])]

theorem count_filter_of_nodup {l : List Nat} (hnd : l.Nodup) (p : Nat → Bool) (a : Nat) :
    (l.filter p).count a = if a ∈ l ∧ p a then 1 else 0 := by
  by_cases hm : a ∈ l ∧ p a
  · rw [if_pos hm]
    exact List.count_eq_one_of_mem (List.Nodup.filter p hnd) (List.mem_filter.mpr ⟨hm.1, hm.2⟩)
  · rw [if_neg hm]
    refine List.count_eq_zero_of_not_mem fun hc => hm ?_
    exact List.mem_filter.mp hc

/-! ### Characterisation of `Check` -/
theorem alive_false_iff (w : World α β) (id : Nat) :
    w.alive id = false ↔ w.slotAt id = none := by
  unfold World.alive
  cases hs : w.slotAt id <;> simp

theorem alive_of_liveEnabled {w : World α β} {id : Nat}
    (h : w.liveEnabled id = true) : w.alive id = true := by
  unfold World.alive
  unfold World.liveEnabled at h
  cases hs : w.slotAt id with
  | none => rw [hs] at h; simp at h
  | some s => simp

theorem liveEnabled_iff (w : World α β) (id : Nat) :
    w.liveEnabled id = true ↔ ∃ s, w.slotAt id = some s ∧ s.enabled = true := by
  unfold World.liveEnabled
  cases hs : w.slotAt id with
  | none => simp
  | some s => simp

theorem length_filter_contains {snap cons : List Nat} (hsn : snap.Nodup) :
    (snap.filter fun p => cons.contains p).length =
      (snap.toFinset ∩ cons.toFinset).card := by
  have hfe : (snap.filter fun p => cons.contains p) =
      snap.filter fun p => decide (p ∈ cons.toFinset) := by
    apply List.filter_congr
    intro x _
    simp [List.mem_toFinset]
  rw [hfe, ← List.toFinset_card_of_nodup (List.Nodup.filter _ hsn), List.toFinset_filter]
  congr 1
  ext x
  simp [List.mem_toFinset]

theorem count_eq_length_iff {snap cons : List Nat} (hsn : snap.Nodup) :
    ((snap.filter fun p => cons.contains p).length = cons.length) ↔
      (cons.Nodup ∧ ∀ id ∈ cons, id ∈ snap) := by
  rw [length_filter_contains hsn]
  constructor
  · intro h
    have hsub : snap.toFinset ∩ cons.toFinset ⊆ cons.toFinset := Finset.inter_subset_right
    have hc1 : cons.toFinset.card ≤ cons.length := by
      rw [List.card_toFinset]
      exact List.Sublist.length_le (List.dedup_sublist cons)
    have hc2 : (snap.toFinset ∩ cons.toFinset).card ≤ cons.toFinset.card :=
      Finset.card_le_card hsub
    have hcard : cons.toFinset.card = cons.length := le_antisymm hc1 (h ▸ hc2)
    have hnd : cons.Nodup := by
      rw [List.card_toFinset] at hcard
      exact List.dedup_eq_self.mp (List.Sublist.eq_of_length (List.dedup_sublist cons) hcard)
    have heq : snap.toFinset ∩ cons.toFinset = cons.toFinset :=
      Finset.eq_of_subset_of_card_le hsub (by rw [hcard, h])
    refine ⟨hnd, fun id hid => ?_⟩
    have hmem : id ∈ cons.toFinset := List.mem_toFinset.mpr hid
    rw [← heq] at hmem
    exact List.mem_toFinset.mp (Finset.mem_of_mem_inter_left hmem)
  · rintro ⟨hnd, hsub⟩
    have heq : snap.toFinset ∩ cons.toFinset = cons.toFinset := by
      apply Finset.inter_eq_right.mpr
      intro x hx
      exact List.mem_toFinset.mpr (hsub x (List.mem_toFinset.mp hx))
    rw [heq, List.card_toFinset, List.dedup_eq_self.mpr hnd]

theorem check_none_st (w : World α β) (cons : List Connection) :
    check w none cons = some .foreignOrDup := rfl

theorem check_some_snap (w : World α β) (snap : List Nat) (cons : List Connection) :
    check w (some snap) cons =
      match cons.findSome?
          (fun id => if (w.slotAt id).isSome then none else some SigError.closed) with
      | some e => some e
      | none =>
        if (snap.filter fun p => cons.contains p).length = cons.length then none
        else some .foreignOrDup := rfl

theorem check_eq_none_iff {w : World α β} {st : Store} {cons : List Connection}
    (hnd : (st.getD []).Nodup) (hne : cons ≠ []) :
    check w st cons = none ↔
      ((∀ id ∈ cons, w.alive id = true) ∧ cons.Nodup ∧ ∀ id ∈ cons, id ∈ st.getD []) := by
  cases st with
  | none =>
    rw [check_none_st]
    constructor
    · intro h; simp at h
    · rintro ⟨-, -, hsub⟩
      obtain ⟨a, ha⟩ := List.exists_mem_of_ne_nil cons hne
      simpa using hsub a ha
  | some snap =>
    simp only [Option.getD_some] at hnd ⊢
    cases hf : cons.findSome?
        (fun id => if (w.slotAt id).isSome then none else some SigError.closed) with
    | some e =>
      simp only [check_some_snap, hf]
      constructor
      · intro h; simp at h
      · rintro ⟨halive, -, -⟩
        obtain ⟨a, ha, hfa⟩ := List.exists_of_findSome?_eq_some hf
        have hl := halive a ha
        unfold World.alive at hl
        simp [hl] at hfa
    | none =>
      have halive : ∀ id ∈ cons, w.alive id = true := by
        intro id hid
        have h2 := List.findSome?_eq_none_iff.mp hf id hid
        unfold World.alive
        cases hs : w.slotAt id with
        | none => rw [hs] at h2; simp at h2
        | some s => simp
      simp only [check_some_snap, hf]
      by_cases hcount : (snap.filter fun p => cons.contains p).length = cons.length
      · simp only [if_pos hcount]
        constructor
        · intro _; exact ⟨halive, (count_eq_length_iff hnd).mp hcount⟩
        · intro _; trivial
      · simp only [if_neg hcount]
        constructor
        · intro h; simp at h
        · rintro ⟨-, hrest⟩
          exact absurd ((count_eq_length_iff hnd).mpr hrest) hcount

theorem check_ne_disabled (w : World α β) (st : Store) (cons : List Connection) :
    check w st cons ≠ some .disabled := by
  cases st with
  | none => rw [check_none_st]; simp
  | some snap =>
    cases hf : cons.findSome?
        (fun id => if (w.slotAt id).isSome then none else some SigError.closed) with
    | some e =>
      simp only [check_some_snap, hf]
      obtain ⟨a, ha, hfa⟩ := List.exists_of_findSome?_eq_some hf
      cases hs : w.slotAt a with
      | some s => rw [hs] at hfa; simp at hfa
      | none =>
        rw [hs] at hfa
        simp only [Option.isSome_none, Bool.false_eq_true, if_false, Option.some.injEq] at hfa
        subst hfa
        simp
    | none =>
      simp only [check_some_snap, hf]
      split <;> simp

theorem check_eq_closed_iff (w : World α β) (snap : List Nat) (cons : List Connection) :
    check w (some snap) cons = some .closed ↔ ∃ id ∈ cons, w.alive id = false := by
  cases hf : cons.findSome?
      (fun id => if (w.slotAt id).isSome then none else some SigError.closed) with
  | some e =>
    simp only [check_some_snap, hf]
    obtain ⟨a, ha, hfa⟩ := List.exists_of_findSome?_eq_some hf
    cases hs : w.slotAt a with
    | some s => rw [hs] at hfa; simp at hfa
    | none =>
      rw [hs] at hfa
      simp only [Option.isSome_none, Bool.false_eq_true, if_false, Option.some.injEq] at hfa
      subst hfa
      constructor
      · intro _
        exact ⟨a, ha, (alive_false_iff w a).mpr hs⟩
      · intro _; trivial
  | none =>
    simp only [check_some_snap, hf]
    constructor
    · intro h
      by_cases hcount : (snap.filter fun p => cons.contains p).length = cons.length
      · rw [if_pos hcount] at h; simp at h
      · rw [if_neg hcount] at h; simp at h
    · rintro ⟨a, ha, hdead⟩
      have h2 := List.findSome?_eq_none_iff.mp hf a ha
      rw [(alive_false_iff w a).mp hdead] at h2
      simp at h2

theorem check_closed_of_dead {w : World α β} {snap : List Nat} {cons : List Connection}
    (h : ∃ id ∈ cons, w.alive id = false) :
    check w (some snap) cons = some .closed :=
  (check_eq_closed_iff w snap cons).mpr h

theorem check_foreign_iff {w : World α β} {st : Store} {cons : List Connection}
    (hnd : (st.getD []).Nodup) (hne : cons ≠ [])
    (halive : ∀ id ∈ cons, w.alive id = true) :
    check w st cons = some .foreignOrDup ↔
      ¬(cons.Nodup ∧ ∀ id ∈ cons, id ∈ st.getD []) := by
  cases st with
  | none =>
    rw [check_none_st]
    constructor
    · rintro - ⟨-, hsub⟩
      obtain ⟨a, ha⟩ := List.exists_mem_of_ne_nil cons hne
      simpa using hsub a ha
    · intro _; trivial
  | some snap =>
    simp only [Option.getD_some] at hnd ⊢
    cases hf : cons.findSome?
        (fun id => if (w.slotAt id).isSome then none else some SigError.closed) with
    | some e =>
      obtain ⟨a, ha, hfa⟩ := List.exists_of_findSome?_eq_some hf
      have hl := halive a ha
      unfold World.alive at hl
      simp [hl] at hfa
    | none =>
      simp only [check_some_snap, hf]
      by_cases hcount : (snap.filter fun p => cons.contains p).length = cons.length
      · rw [if_pos hcount]
        constructor
        · intro h; simp at h
        · intro h; exact absurd ((count_eq_length_iff hnd).mp hcount) h
      · rw [if_neg hcount]
        constructor
        · intro _ hcond; exact hcount ((count_eq_length_iff hnd).mpr hcond)
        · intro _; trivial

/-! ### Lemmas about the error reported by `Capture` -/

theorem capture_error_eq (args : α) (w : World α β) (st : Store) (cons : List Connection) :
    (capture args w st cons).result.error =
      optOr (check w st cons) (cons.findSome? (verdict w)) := by
  unfold capture
  cases hc : check w st cons with
  | some e => simp [emplaceError, optOr]
  | none => simp [emitConnection_eq, optOr]

theorem capture_check_fail (args : α) (w : World α β) (st : Store)
    (cons : List Connection) (e : SigError) (hc : check w st cons = some e) :
    capture args w st cons = ⟨⟨[], some e⟩, [], w⟩ := by
  unfold capture
  rw [hc]
  simp [emplaceError]

theorem findSome?_verdict_eq_none_iff (w : World α β) (cons : List Connection) :
    cons.findSome? (verdict w) = none ↔ ∀ id ∈ cons, w.liveEnabled id = true := by
  rw [List.findSome?_eq_none_iff]
  constructor
  · intro h id hid; exact (verdict_eq_none_iff w id).mp (h id hid)
  · intro h id hid; exact (verdict_eq_none_iff w id).mpr (h id hid)

theorem findSome?_verdict_closed {w : World α β} {cons : List Connection}
    (hnodis : ∀ id ∈ cons, w.alive id = true → w.liveEnabled id = true)
    (hdead : ∃ id ∈ cons, w.alive id = false) :
    cons.findSome? (verdict w) = some .closed := by
  induction cons with
  | nil => simp at hdead
  | cons a rest ih =>
    rw [List.findSome?_cons]
    cases hv : verdict w a with
    | none =>
      have ha : w.liveEnabled a = true := (verdict_eq_none_iff w a).mp hv
      have haalive : w.alive a = true := alive_of_liveEnabled ha
      refine ih (fun id hid h => hnodis id (by simp [hid]) h) ?_
      obtain ⟨d, hd, hdd⟩ := hdead
      rcases List.mem_cons.mp hd with rfl | hd2
      · rw [haalive] at hdd
        exact absurd hdd (by simp)
      · exact ⟨d, hd2, hdd⟩
    | some e =>
      rcases e with _ | _ | _
      · rfl
      · have hdis := (verdict_eq_disabled_iff w a).mp hv
        have h2 := hnodis a (by simp) hdis.1
        rw [h2] at hdis
        exact absurd hdis.2 (by simp)
      · exact absurd hv (verdict_ne_foreign w a)

theorem findSome?_verdict_disabled {w : World α β} {cons : List Connection}
    (halive : ∀ id ∈ cons, w.alive id = true)
    (hdis : ∃ id ∈ cons, w.liveEnabled id = false) :
    cons.findSome? (verdict w) = some .disabled := by
  cases hf : cons.findSome? (verdict w) with
  | none =>
    obtain ⟨d, hd, hdd⟩ := hdis
    have := (findSome?_verdict_eq_none_iff w cons).mp hf d hd
    rw [this] at hdd
    exact absurd hdd (by simp)
  | some e =>
    obtain ⟨a, ha, hfa⟩ := List.exists_of_findSome?_eq_some hf
    rcases e with _ | _ | _
    · have := (verdict_eq_closed_iff w a).mp hfa
      rw [halive a ha] at this
      exact absurd this (by simp)
    · rfl
    · exact absurd hfa (verdict_ne_foreign w a)

/-! ### Further shared helpers for the claim theorems -/

theorem slotAt_go_append_self (hp : List (Option (Slot α β))) (v : Option (Slot α β)) :
    World.slotAt.go (hp ++ [v]) hp.length = v := by
  induction hp with
  | nil => rfl
  | cons h t ih => simpa [World.slotAt.go] using ih

theorem slotAt_go_append_lt {hp : List (Option (Slot α β))} {j : Nat}
    (h : j < hp.length) (v : Option (Slot α β)) :
    World.slotAt.go (hp ++ [v]) j = World.slotAt.go hp j := by
  induction hp generalizing j with
  | nil => simp at h
  | cons a t ih =>
    cases j with
    | zero => rfl
    | succ j =>
      simp only [List.cons_append, World.slotAt.go]
      exact ih (by simpa using h)

theorem liveEnabled_disableAll_of_mem {w : World α β} {cons : List Connection}
    {id : Nat} (h : id ∈ cons) : (disableAll w cons).liveEnabled id = false := by
  unfold World.liveEnabled
  rw [slotAt_disableAll, if_pos h]
  cases w.slotAt id <;> simp

theorem slotAt_disableAll_of_not_mem {w : World α β} {cons : List Connection}
    {id : Nat} (h : id ∉ cons) : (disableAll w cons).slotAt id = w.slotAt id := by
  rw [slotAt_disableAll, if_neg h]

theorem liveEnabled_disableAll_of_not_mem {w : World α β} {cons : List Connection}
    {id : Nat} (h : id ∉ cons) :
    (disableAll w cons).liveEnabled id = w.liveEnabled id := by
  unfold World.liveEnabled
  rw [slotAt_disableAll_of_not_mem h]

theorem check_success {w : World α β} {snap : List Nat} {cons : List Connection}
    (hsn : snap.Nodup) (hcn : cons.Nodup)
    (hsub : ∀ id ∈ cons, id ∈ snap) (halive : ∀ id ∈ cons, w.alive id = true) :
    check w (some snap) cons = none := by
  rw [check_some_snap]
  have hf : cons.findSome?
      (fun id => if (w.slotAt id).isSome then none else some SigError.closed) = none := by
    rw [List.findSome?_eq_none_iff]
    intro id hid
    have ha := halive id hid
    unfold World.alive at ha
    simp [ha]
  simp only [hf]
  rw [if_pos ((count_eq_length_iff hsn).mpr ⟨hcn, hsub⟩)]

theorem capture_check_none (args : α) (w : World α β) (st : Store)
    (cons : List Connection) (hc : check w st cons = none) :
    capture args w st cons =
      ⟨emitConnection args w cons,
       broadcastTasks args (disableAll w cons) st,
       enableAll (disableAll w cons) cons⟩ := by
  unfold capture
  rw [hc]

/-- A fully valid direct emission: no error, one tracked task per handle in
handle order, each holding its slot's handler applied to the payload. -/
theorem emitConnection_success (args : α) (w : World α β) (cons : List Connection)
    (hall : ∀ id ∈ cons, w.liveEnabled id = true) :
    (emitConnection args w cons).error = none ∧
    (emitConnection args w cons).spawned.map Prod.fst = cons ∧
    (emitConnection args w cons).spawned.map some =
      cons.map (fun id => (w.slotAt id).map (fun s => (id, s.handler args))) := by
  rw [emitConnection_eq]
  refine ⟨(findSome?_verdict_eq_none_iff w cons).mpr hall, ?_, ?_⟩
  · simp only
    rw [map_fst_filterMap_of_fst (fun a p h => taskOf_fst h)]
    apply List.filter_eq_self.mpr
    intro a ha
    rw [taskOf_isSome]
    exact hall a ha
  · simp only
    rw [filterMap_map_some_of_isSome (fun a ha => by rw [taskOf_isSome]; exact hall a ha)]
    apply List.map_congr_left
    intro a ha
    obtain ⟨s, hs, he⟩ := (liveEnabled_iff w a).mp (hall a ha)
    rw [taskOf_of_liveEnabled hs he, hs]
    rfl

theorem alive_iff (w : World α β) (id : Nat) :
    w.alive id = true ↔ ∃ s, w.slotAt id = some s := by
  unfold World.alive
  cases hs : w.slotAt id <;> simp

/-! ### Claim theorems -/

/-- C9: a slot created by connect is enabled from the moment it is
published: `Register` initialises `enabled_` to `true`, so a broadcast
issued immediately after connect, with no intervening `enable()` call,
invokes the newly registered handler. -/
theorem connect_publishes_enabled_slot (h : α → β) (w : World α β) (st : Store) (args : α) :
    (register h w st).2.1.slotAt (register h w st).1 = some ⟨true, h⟩ ∧
    ((register h w st).1, h args) ∈
      broadcastTasks args (register h w st).2.1 (some (register h w st).2.2) := by
  have hslot : (register h w st).2.1.slotAt (register h w st).1 = some ⟨true, h⟩ := by
    show World.slotAt.go (w.heap ++ [some ⟨true, h⟩]) w.heap.length = some ⟨true, h⟩
    exact slotAt_go_append_self w.heap _
  refine ⟨hslot, ?_⟩
  apply mem_broadcastTasks.mpr
  constructor
  · show w.heap.length ∈ st.getD [] ++ [w.heap.length]
    simp
  · exact taskOf_of_liveEnabled hslot rfl

/-- C10: the aggregate returned by a Direct or Capture emission carries at
most one error, namely the first one in validation order: for Direct the
earliest offending handle in argument order; for Capture an error thrown by
the `Check` pre-pass takes precedence, and otherwise the earliest offending
handle of the per-handle pass wins.  All later errors are discarded by
`Emplace_error`. -/
theorem aggregate_reports_first_error (args : α) (w : World α β) (st : Store)
    (cons : List Connection) :
    (emitConnection args w cons).error = cons.findSome? (verdict w) ∧
    (capture args w st cons).result.error =
      optOr (check w st cons) (cons.findSome? (verdict w)) :=
  ⟨by rw [emitConnection_eq], capture_error_eq args w st cons⟩

/-- C4: a Direct emission whose handles all resolve to live enabled slots
returns the aggregate of the per-handle handler results, in handle argument
order, with no error. -/
theorem direct_emission_ordered_aggregate (args : α) (w : World α β)
    (cons : List Connection) (hall : ∀ id ∈ cons, w.liveEnabled id = true) :
    (emitConnection args w cons).error = none ∧
    (emitConnection args w cons).spawned.map Prod.fst = cons ∧
    (emitConnection args w cons).spawned.map some =
      cons.map (fun id => (w.slotAt id).map (fun s => (id, s.handler args))) :=
  emitConnection_success args w cons hall

/-- C4 witness: payload `(5, "hello")` dispatched to the two connections of
`exW4` yields the aggregate `(15, "hello world")`. -/
theorem direct_emission_ordered_aggregate_witness :
    (emitConnection ((5 : Nat), "hello") exW4 [0, 1]).error = none ∧
    (emitConnection ((5 : Nat), "hello") exW4 [0, 1]).spawned =
      [(0, Sum.inl 15), (1, Sum.inr "hello world")] := by
  have h := direct_emission_ordered_aggregate ((5 : Nat), "hello") exW4 [0, 1] (by decide)
  exact ⟨h.1, by rfl⟩

/-- C1 counterexample: a Direct emission naming a live enabled handle and
an expired handle fails validation (`closed`) yet still spawns the tracked
task of the live handle — the call does not have zero side effects. -/
theorem zero_side_effects_counterexample :
    (emitConnection (0 : Nat) exW1 [0, 1]).error = some .closed ∧
    (emitConnection (0 : Nat) exW1 [0, 1]).spawned = [(0, 1)] := by
  constructor <;> rfl

/-- C1 (amended): only a Capture emission whose `Check` pre-pass fails has
zero side effects (no task spawned, no broadcast, world unchanged), with
the error reported through the returned aggregate failing immediately.  A
Direct emission, and the per-handle pass of a Capture whose pre-pass
succeeded, do not abort on a validation failure: every live enabled named
handle still gets its tracked task spawned, the first validation error is
reported through the aggregate, and in Capture the broadcast still runs and
the named slots — even those whose `disabled` state caused the failure —
are left enabled afterwards. -/
theorem validation_failure_side_effects (args : α) (w : World α β) (st : Store)
    (cons : List Connection) :
    (∀ e, check w st cons = some e →
      capture args w st cons = ⟨⟨[], some e⟩, [], w⟩) ∧
    ((emitConnection args w cons).spawned = cons.filterMap (taskOf args w)) ∧
    ((emitConnection args w cons).error = cons.findSome? (verdict w)) ∧
    (check w st cons = none → ∀ id ∈ cons, w.alive id = true →
      (capture args w st cons).world.liveEnabled id = true) := by
  refine ⟨fun e hc => capture_check_fail args w st cons e hc, ?_, ?_, ?_⟩
  · rw [emitConnection_eq]
  · rw [emitConnection_eq]
  · intro hc id hid hal
    rw [capture_check_none args w st cons hc]
    apply (liveEnabled_iff _ id).mpr
    show ∃ s, (enableAll (disableAll w cons) cons).slotAt id = some s ∧ s.enabled = true
    rw [slotAt_enableAll_disableAll, if_pos hid]
    obtain ⟨s, hs⟩ := (alive_iff w id).mp hal
    rw [hs]
    exact ⟨⟨true, s.handler⟩, rfl, rfl⟩

/-- C1 (amended) witness: capturing the disabled slot 0 of `exW1d` fails
per-handle validation yet leaves slot 0 enabled afterwards; a Capture
against a never-initialised store fails in the pre-pass with zero side
effects. -/
theorem validation_failure_side_effects_witness :
    (capture (7 : Nat) exW1d (some [0, 1]) [0]).world.liveEnabled 0 = true ∧
    capture (7 : Nat) exW1d none [0] = ⟨⟨[], some .foreignOrDup⟩, [], exW1d⟩ := by
  constructor
  · exact (validation_failure_side_effects 7 exW1d (some [0, 1]) [0]).2.2.2
      (by decide) 0 (by decide) (by decide)
  · exact (validation_failure_side_effects 7 exW1d none [0]).1 .foreignOrDup (by decide)

/-- C5: after `disable()` returns `true` a subsequent broadcast does not
invoke that slot's handler; after a subsequent `enable()` broadcast invokes
it again; once the handle's slot no longer exists, `enable()` and
`disable()` return `false`, keep returning `false`, and change no state. -/
theorem gate_semantics (args : α) (w : World α β) (st : Store)
    (idL idD : Nat) (s : Slot α β)
    (hL : w.slotAt idL = some s) (hmem : idL ∈ st.getD [])
    (hD : w.slotAt idD = none) :
    (disable w idL).1 = true ∧
    idL ∉ ((broadcastTasks args (disable w idL).2 st).map Prod.fst) ∧
    (enable (disable w idL).2 idL).1 = true ∧
    (idL, s.handler args) ∈ broadcastTasks args (enable (disable w idL).2 idL).2 st ∧
    enable w idD = (false, w) ∧
    disable w idD = (false, w) ∧
    (enable (enable w idD).2 idD).1 = false ∧
    (disable (disable w idD).2 idD).1 = false := by
  have hdis : (disable w idL).2.slotAt idL = some ⟨false, s.handler⟩ := by
    have h1 := slotAt_setEnabled w idL false idL
    simp only [if_pos rfl, hL, Option.map_some'] at h1
    exact h1
  have hen : (enable (disable w idL).2 idL).2.slotAt idL = some ⟨true, s.handler⟩ := by
    have h1 := slotAt_setEnabled (disable w idL).2 idL true idL
    simp only [if_pos rfl, hdis, Option.map_some'] at h1
    exact h1
  have hdead5 : enable w idD = (false, w) := setEnabled_dead hD true
  have hdead6 : disable w idD = (false, w) := setEnabled_dead hD false
  refine ⟨setEnabled_fst_live hL false, ?_, setEnabled_fst_live hdis true, ?_,
    hdead5, hdead6, ?_, ?_⟩
  · rw [map_fst_broadcastTasks]
    intro hc
    have := (List.mem_filter.mp hc).2
    unfold World.liveEnabled at this
    rw [hdis] at this
    simp at this
  · exact mem_broadcastTasks.mpr ⟨hmem, by rw [taskOf_of_liveEnabled hen rfl]⟩
  · rw [hdead5, hdead5]
  · rw [hdead6, hdead6]

/-- C5 witness: on `exW5` (slot 0 live, id 3 expired, store `[0]`),
disable gates the broadcast, enable restores it, and both calls on the dead
handle keep returning `false`. -/
theorem gate_semantics_witness :
    (disable exW5 0).1 = true ∧
    0 ∉ ((broadcastTasks (3 : Nat) (disable exW5 0).2 (some [0])).map Prod.fst) ∧
    (enable (disable exW5 0).2 0).1 = true ∧
    ((0 : Nat), (6 : Nat)) ∈ broadcastTasks (3 : Nat) (enable (disable exW5 0).2 0).2 (some [0]) ∧
    enable exW5 3 = (false, exW5) ∧
    disable exW5 3 = (false, exW5) := by
  have h := gate_semantics (3 : Nat) exW5 (some [0]) 0 3 ⟨true, fun n => n * 2⟩
    rfl (by decide) rfl
  exact ⟨h.1, h.2.1, h.2.2.1, h.2.2.2.1, h.2.2.2.2.1, h.2.2.2.2.2.1⟩

/-- C6: `disconnect` returns `false` on an expired handle or a slot absent
from the current snapshot (leaving the store untouched), and otherwise
publishes the snapshot minus exactly that slot and returns `true`; a second
disconnect of the same slot then returns `false`, and a subsequent
broadcast does not invoke the removed slot's handler. -/
theorem disconnect_semantics (args : α) (w : World α β) (st : Store)
    (idL idA idD : Nat) (s sA : Slot α β)
    (hL : w.slotAt idL = some s) (hmem : idL ∈ st.getD [])
    (hA : w.slotAt idA = some sA) (hAmem : idA ∉ st.getD [])
    (hD : w.slotAt idD = none) (hnd : (st.getD []).Nodup) :
    disconnect w st idD = (false, st) ∧
    disconnect w st idA = (false, st) ∧
    (disconnect w st idL).1 = true ∧
    (disconnect w st idL).2 = some ((st.getD []).erase idL) ∧
    (disconnect w ((disconnect w st idL).2) idL).1 = false ∧
    idL ∉ ((broadcastTasks args w (disconnect w st idL).2).map Prod.fst) := by
  have h1 : disconnect w st idD = (false, st) := by
    unfold disconnect
    rw [hD]
  have h2 : disconnect w st idA = (false, st) := by
    unfold disconnect
    rw [hA]
    simp [hAmem]
  have h3 : disconnect w st idL = (true, some ((st.getD []).erase idL)) := by
    unfold disconnect
    rw [hL]
    simp [hmem]
  have hnotmem : idL ∉ (st.getD []).erase idL := List.Nodup.not_mem_erase hnd
  refine ⟨h1, h2, by rw [h3], by rw [h3], ?_, ?_⟩
  · rw [h3]
    unfold disconnect
    rw [hL]
    simp [hnotmem]
  · rw [h3, map_fst_broadcastTasks]
    intro hc
    simp only [Option.getD_some] at hc
    exact hnotmem (List.mem_filter.mp hc).1

/-- C6 witness: on `exW6` with store `[0]`, disconnecting the dead id 5 and
the foreign slot 1 returns `false` and leaves the store unchanged;
disconnecting slot 0 succeeds and publishes the empty snapshot; a second
disconnect of slot 0 returns `false`. -/
theorem disconnect_semantics_witness :
    disconnect exW6 (some [0]) 5 = (false, some [0]) ∧
    disconnect exW6 (some [0]) 1 = (false, some [0]) ∧
    (disconnect exW6 (some [0]) 0).1 = true ∧
    (disconnect exW6 (some [0]) 0).2 = some [] ∧
    (disconnect exW6 ((disconnect exW6 (some [0]) 0).2) 0).1 = false := by
  have h := disconnect_semantics (0 : Nat) exW6 (some [0]) 0 1 5
    ⟨true, fun n => n + 1⟩ ⟨true, fun n => n + 2⟩ rfl (by decide) rfl (by decide) rfl (by decide)
  refine ⟨h.1, h.2.1, h.2.2.1, ?_, h.2.2.2.2.1⟩
  rw [h.2.2.2.1]
  rfl

/-- C7: connect publishes a new snapshot equal to the previous one plus the
one freshly allocated (enabled) slot, leaving every previously published
slot and its heap state untouched, and keeping the snapshot
duplicate-free; a successful disconnect publishes the previous snapshot
minus exactly that slot, preserving every other element and their relative
order (the new snapshot is a sublist of the old); published snapshots are
values — building the new one never mutates the old. -/
theorem snapshot_cow_publish (h : α → β) (w : World α β) (st : Store)
    (id : Nat) (s : Slot α β)
    (hL : w.slotAt id = some s) (hmem : id ∈ st.getD [])
    (hnd : (st.getD []).Nodup)
    (hbound : ∀ i ∈ st.getD [], i < w.heap.length) :
    (register h w st).2.2 = st.getD [] ++ [(register h w st).1] ∧
    (register h w st).1 ∉ st.getD [] ∧
    ((register h w st).2.2).Nodup ∧
    (∀ j ∈ st.getD [], (register h w st).2.1.slotAt j = w.slotAt j) ∧
    (disconnect w st id).2 = some ((st.getD []).filter (fun x => x != id)) ∧
    ((st.getD []).filter (fun x => x != id)).Sublist (st.getD []) := by
  have hfresh : w.heap.length ∉ st.getD [] :=
    fun hc => absurd (hbound _ hc) (lt_irrefl _)
  refine ⟨rfl, hfresh, ?_, ?_, ?_, List.filter_sublist _⟩
  · show (st.getD [] ++ [w.heap.length]).Nodup
    rw [List.nodup_append]
    refine ⟨hnd, List.nodup_singleton _, fun a ha hb => ?_⟩
    rw [List.mem_singleton] at hb
    subst hb
    exact hfresh ha
  · intro j hj
    show World.slotAt.go (w.heap ++ [some ⟨true, h⟩]) j = _
    exact slotAt_go_append_lt (hbound j hj) _
  · have hd : (disconnect w st id).2 = some ((st.getD []).erase id) := by
      unfold disconnect
      rw [hL]
      simp [hmem]
    rw [hd, List.Nodup.erase_eq_filter hnd]

/-- C7 witness: on `exW6` with store `[0]`, connect publishes `[0, 2]`
with the fresh slot 2 not previously present, and disconnecting slot 0
publishes the empty snapshot. -/
theorem snapshot_cow_publish_witness :
    (register (fun n => n + 3) exW6 (some [0])).2.2 = [0, 2] ∧
    (register (fun n => n + 3) exW6 (some [0])).1 ∉ ([0] : List Nat) ∧
    (disconnect exW6 (some [0]) 0).2 = some [] := by
  have h := snapshot_cow_publish (fun n => n + 3) exW6 (some [0]) 0
    ⟨true, fun n => n + 1⟩ rfl (by decide) (by decide) (by decide)
  refine ⟨?_, h.2.1, ?_⟩
  · rw [h.1]
    rfl
  · rw [h.2.2.2.2.1]
    rfl

/-- C2: in a successful Capture emission each named slot contributes
exactly its tracked entry to the aggregate, in handle order (and not to the
broadcast); every other enabled slot of the snapshot is broadcast exactly
once; no slot fires twice; and afterwards every slot — the named ones
included — is exactly as it was before the call. -/
theorem capture_net_effect (args : α) (w : World α β) (snap : List Nat)
    (cons : List Connection)
    (hsn : snap.Nodup) (hcn : cons.Nodup)
    (hsub : ∀ id ∈ cons, id ∈ snap)
    (hen : ∀ id ∈ cons, w.liveEnabled id = true) :
    (capture args w (some snap) cons).result.error = none ∧
    (capture args w (some snap) cons).result.spawned.map Prod.fst = cons ∧
    (capture args w (some snap) cons).result.spawned.map some =
      cons.map (fun id => (w.slotAt id).map (fun s => (id, s.handler args))) ∧
    (∀ id ∈ cons, id ∉ ((capture args w (some snap) cons).bcast.map Prod.fst)) ∧
    (∀ id ∈ snap, id ∉ cons → w.liveEnabled id = true →
      ((capture args w (some snap) cons).bcast.map Prod.fst).count id = 1 ∧
      ∀ s, w.slotAt id = some s →
        (id, s.handler args) ∈ (capture args w (some snap) cons).bcast) ∧
    (∀ id : Nat, (((capture args w (some snap) cons).result.spawned ++
      (capture args w (some snap) cons).bcast).map Prod.fst).count id ≤ 1) ∧
    (∀ j : Nat, (capture args w (some snap) cons).world.slotAt j = w.slotAt j) := by
  have halive : ∀ id ∈ cons, w.alive id = true :=
    fun id hid => alive_of_liveEnabled (hen id hid)
  have hc : check w (some snap) cons = none := check_success hsn hcn hsub halive
  have hcap := capture_check_none args w (some snap) cons hc
  have hres : (capture args w (some snap) cons).result = emitConnection args w cons := by
    rw [hcap]
  have hbc : (capture args w (some snap) cons).bcast =
      broadcastTasks args (disableAll w cons) (some snap) := by
    rw [hcap]
  have hwo : (capture args w (some snap) cons).world =
      enableAll (disableAll w cons) cons := by
    rw [hcap]
  have hsucc := emitConnection_success args w cons hen
  have hbfst : (broadcastTasks args (disableAll w cons) (some snap)).map Prod.fst =
      snap.filter fun id => (disableAll w cons).liveEnabled id := by
    rw [map_fst_broadcastTasks]
    rfl
  refine ⟨hres ▸ hsucc.1, hres ▸ hsucc.2.1, hres ▸ hsucc.2.2, ?_, ?_, ?_, ?_⟩
  · intro id hid hcmem
    rw [hbc, hbfst] at hcmem
    have hcon := (List.mem_filter.mp hcmem).2
    rw [liveEnabled_disableAll_of_mem hid] at hcon
    exact absurd hcon (by simp)
  · intro id hid hnotc hlive
    constructor
    · rw [hbc, hbfst, count_filter_of_nodup hsn]
      rw [if_pos ⟨hid, by rw [liveEnabled_disableAll_of_not_mem hnotc]; exact hlive⟩]
    · intro s hs
      rw [hbc]
      apply mem_broadcastTasks.mpr
      refine ⟨by simpa using hid, ?_⟩
      have henb : s.enabled = true := by
        obtain ⟨s2, hs2, he2⟩ := (liveEnabled_iff w id).mp hlive
        rw [hs] at hs2
        injection hs2 with hs2e
        rw [hs2e]
        exact he2
      have hslot : (disableAll w cons).slotAt id = some s := by
        rw [slotAt_disableAll_of_not_mem hnotc, hs]
      exact taskOf_of_liveEnabled hslot henb
  · intro id
    rw [hres, hbc, List.map_append, List.count_append, hsucc.2.1, hbfst]
    by_cases hidc : id ∈ cons
    · have h0 : (snap.filter fun i => (disableAll w cons).liveEnabled i).count id = 0 := by
        apply List.count_eq_zero_of_not_mem
        intro hcm
        have hcon := (List.mem_filter.mp hcm).2
        rw [liveEnabled_disableAll_of_mem hidc] at hcon
        exact absurd hcon (by simp)
      have h1 : cons.count id ≤ 1 := List.nodup_iff_count_le_one.mp hcn id
      omega
    · have h0 : cons.count id = 0 := List.count_eq_zero_of_not_mem hidc
      have h1 : (snap.filter fun i => (disableAll w cons).liveEnabled i).count id ≤ 1 :=
        List.nodup_iff_count_le_one.mp (List.Nodup.filter _ hsn) id
      omega
  · intro j
    rw [hwo, slotAt_enableAll_disableAll]
    by_cases hj : j ∈ cons
    · rw [if_pos hj]
      obtain ⟨s, hs, he⟩ := (liveEnabled_iff w j).mp (hen j hj)
      rw [hs]
      cases s with
      | mk en hd =>
        dsimp only at he ⊢
        subst he
        rfl
    · rw [if_neg hj]

/-- C2 witness: on `exW2` (captured slot 0 with handler `i ↦ i + 1`,
background slot 1 producing the counter increment `1`), emitting payload
`(10, "capture")` yields captured result `11` and the background task is
spawned exactly once. -/
theorem capture_net_effect_witness :
    (capture ((10 : Nat), "capture") exW2 (some [0, 1]) [0]).result.spawned = [(0, 11)] ∧
    ((capture ((10 : Nat), "capture") exW2 (some [0, 1]) [0]).bcast.map Prod.fst).count 1 = 1 ∧
    (capture ((10 : Nat), "capture") exW2 (some [0, 1]) [0]).result.error = none := by
  have h := capture_net_effect ((10 : Nat), "capture") exW2 [0, 1] [0]
    (by decide) (by decide) (by decide) (by decide)
  refine ⟨by rfl, (h.2.2.2.2.1 1 (by decide) (by decide) (by decide)).1, h.1⟩

/-- C3: a Direct or Capture emission fails with `closed` only when a named
handle is expired (and does fail so when one is, absent the overlapping
conditions C10 resolves by precedence: a preceding live-disabled handle,
or, for Capture, a store that was never initialised); fails with
`disabled` only when a named slot is live with its flag off; Capture fails
with `foreignOrDup` exactly when, all handles being live, one is not a
member of the emitter's snapshot or the same slot is named twice; Direct
never reports `foreignOrDup`; success is exactly all-handles-live-enabled
(plus membership and uniqueness for Capture); and Broadcast reports no
error — it invokes exactly the live enabled snapshot members, silently
skipping disabled slots. -/
theorem emission_error_taxonomy (args : α) (w : World α β) (st : Store)
    (cons : List Connection)
    (hnd : (st.getD []).Nodup) (hne : cons ≠ []) :
    ((emitConnection args w cons).error = none ↔ ∀ id ∈ cons, w.liveEnabled id = true) ∧
    ((emitConnection args w cons).error = some .closed → ∃ id ∈ cons, w.alive id = false) ∧
    ((∃ id ∈ cons, w.alive id = false) →
      (∀ id ∈ cons, w.alive id = true → w.liveEnabled id = true) →
      (emitConnection args w cons).error = some .closed) ∧
    ((emitConnection args w cons).error = some .disabled →
      ∃ id ∈ cons, w.alive id = true ∧ w.liveEnabled id = false) ∧
    ((∀ id ∈ cons, w.alive id = true) → (∃ id ∈ cons, w.liveEnabled id = false) →
      (emitConnection args w cons).error = some .disabled) ∧
    ((emitConnection args w cons).error ≠ some .foreignOrDup) ∧
    ((∀ id ∈ cons, w.alive id = true) →
      ((capture args w st cons).result.error = some .foreignOrDup ↔
        ¬(cons.Nodup ∧ ∀ id ∈ cons, id ∈ st.getD []))) ∧
    (∀ snap, st = some snap →
      ((capture args w st cons).result.error = some .closed ↔
        ∃ id ∈ cons, w.alive id = false)) ∧
    ((capture args w st cons).result.error = some .disabled ↔
      ((∀ id ∈ cons, w.alive id = true) ∧ cons.Nodup ∧
        (∀ id ∈ cons, id ∈ st.getD []) ∧
        ∃ id ∈ cons, w.alive id = true ∧ w.liveEnabled id = false)) ∧
    (∀ id ∈ st.getD [], w.liveEnabled id = false →
      id ∉ ((broadcastTasks args w st).map Prod.fst)) ∧
    (∀ id ∈ ((broadcastTasks args w st).map Prod.fst),
      id ∈ st.getD [] ∧ w.liveEnabled id = true) := by
  have herr : (emitConnection args w cons).error = cons.findSome? (verdict w) := by
    rw [emitConnection_eq]
  have hcaperr := capture_error_eq args w st cons
  refine ⟨?_, ?_, ?_, ?_, ?_, ?_, ?_, ?_, ?_, ?_, ?_⟩
  · rw [herr]
    exact findSome?_verdict_eq_none_iff w cons
  · rw [herr]
    intro hcl
    obtain ⟨a, ha, hv⟩ := List.exists_of_findSome?_eq_some hcl
    exact ⟨a, ha, (verdict_eq_closed_iff w a).mp hv⟩
  · rw [herr]
    intro hdead hnodis
    exact findSome?_verdict_closed hnodis hdead
  · rw [herr]
    intro hd
    obtain ⟨a, ha, hv⟩ := List.exists_of_findSome?_eq_some hd
    exact ⟨a, ha, (verdict_eq_disabled_iff w a).mp hv⟩
  · rw [herr]
    exact fun hall hdis => findSome?_verdict_disabled hall hdis
  · rw [herr]
    intro hcon
    obtain ⟨a, -, hv⟩ := List.exists_of_findSome?_eq_some hcon
    exact verdict_ne_foreign w a hv
  · intro halive
    rw [hcaperr]
    constructor
    · intro h
      cases hck : check w st cons with
      | some e =>
        rw [hck] at h
        have he : e = .foreignOrDup := by simpa [optOr] using h
        subst he
        exact (check_foreign_iff hnd hne halive).mp hck
      | none =>
        rw [hck] at h
        simp only [optOr] at h
        obtain ⟨a, -, hv⟩ := List.exists_of_findSome?_eq_some h
        exact absurd hv (verdict_ne_foreign w a)
    · intro hviol
      rw [(check_foreign_iff hnd hne halive).mpr hviol]
      simp [optOr]
  · intro snap hst
    subst hst
    rw [hcaperr]
    constructor
    · intro h
      cases hck : check w (some snap) cons with
      | some e =>
        rw [hck] at h
        have he : e = .closed := by simpa [optOr] using h
        subst he
        exact (check_eq_closed_iff w snap cons).mp hck
      | none =>
        rw [hck] at h
        simp only [optOr] at h
        obtain ⟨a, ha, hv⟩ := List.exists_of_findSome?_eq_some h
        exact ⟨a, ha, (verdict_eq_closed_iff w a).mp hv⟩
    · intro hdead
      rw [check_closed_of_dead hdead]
      simp [optOr]
  · rw [hcaperr]
    constructor
    · intro h
      cases hck : check w st cons with
      | some e =>
        rw [hck] at h
        have he : e = .disabled := by simpa [optOr] using h
        subst he
        exact absurd hck (check_ne_disabled w st cons)
      | none =>
        rw [hck] at h
        simp only [optOr] at h
        obtain ⟨halive2, hcn2, hsub2⟩ := (check_eq_none_iff hnd hne).mp hck
        obtain ⟨a, ha, hv⟩ := List.exists_of_findSome?_eq_some h
        exact ⟨halive2, hcn2, hsub2, a, ha, (verdict_eq_disabled_iff w a).mp hv⟩
    · rintro ⟨halive2, hcn2, hsub2, a, ha, haal, hadis⟩
      rw [(check_eq_none_iff hnd hne).mpr ⟨halive2, hcn2, hsub2⟩]
      simp only [optOr]
      exact findSome?_verdict_disabled halive2 ⟨a, ha, hadis⟩
  · intro id hmem hdis hcm
    rw [map_fst_broadcastTasks] at hcm
    have hcon := (List.mem_filter.mp hcm).2
    rw [hdis] at hcon
    exact absurd hcon (by simp)
  · intro id hcm
    rw [map_fst_broadcastTasks] at hcm
    exact ⟨(List.mem_filter.mp hcm).1, (List.mem_filter.mp hcm).2⟩

/-- C3 witness: on `exW3` (slot 0 enabled, slot 1 disabled, id 2 expired,
slot 3 foreign; store `[0, 1]`), each failure mode produces exactly its
error: an expired handle gives `closed` (Direct and Capture), a disabled
slot gives `disabled` (Direct and Capture), a foreign slot or a duplicated
handle gives `foreignOrDup` (Capture). -/
theorem emission_error_taxonomy_witness :
    (emitConnection (0 : Nat) exW3 [2, 0]).error = some .closed ∧
    (emitConnection (0 : Nat) exW3 [1]).error = some .disabled ∧
    (capture (0 : Nat) exW3 (some [0, 1]) [3]).result.error = some .foreignOrDup ∧
    (capture (0 : Nat) exW3 (some [0, 1]) [0, 0]).result.error = some .foreignOrDup ∧
    (capture (0 : Nat) exW3 (some [0, 1]) [2]).result.error = some .closed ∧
    (capture (0 : Nat) exW3 (some [0, 1]) [1]).result.error = some .disabled := by
  refine ⟨?_, ?_, ?_, ?_, ?_, ?_⟩
  · exact (emission_error_taxonomy 0 exW3 (some [0, 1]) [2, 0] (by decide)
      (by decide)).2.2.1 ⟨2, by decide, by decide⟩ (by decide)
  · exact (emission_error_taxonomy 0 exW3 (some [0, 1]) [1] (by decide)
      (by decide)).2.2.2.2.1 (by decide) ⟨1, by decide, by decide⟩
  · exact ((emission_error_taxonomy 0 exW3 (some [0, 1]) [3] (by decide)
      (by decide)).2.2.2.2.2.2.1 (by decide)).mpr (by decide)
  · exact ((emission_error_taxonomy 0 exW3 (some [0, 1]) [0, 0] (by decide)
      (by decide)).2.2.2.2.2.2.1 (by decide)).mpr (by decide)
  · exact ((emission_error_taxonomy 0 exW3 (some [0, 1]) [2] (by decide)
      (by decide)).2.2.2.2.2.2.2.1 [0, 1] rfl).mpr ⟨2, by decide, by decide⟩
  · exact ((emission_error_taxonomy 0 exW3 (some [0, 1]) [1] (by decide)
      (by decide)).2.2.2.2.2.2.2.2.1).mpr (by decide)

end SignalModel
